import Mathlib

/-!
Verification of the missing-value remediation and skew-correction pipeline of
the customer-loans EDA repository.  A pandas DataFrame is modelled
column-major: a row count (the length of the index, `len(df)`) together with a
list of named, dtyped columns whose cells are optional values; `none` models a
NaN/null cell.  Numeric scalars are modelled as rationals, so the statistics
(median, mean, skewness comparisons) are computed exactly.
-/

namespace LoansEDA

instance {ε α : Type _} [DecidableEq ε] [DecidableEq α] : DecidableEq (Except ε α) :=
  fun x y =>
    match x, y with
    | Except.ok a, Except.ok b =>
      if h : a = b then isTrue (by rw [h]) else isFalse (by simp [h])
    | Except.error a, Except.error b =>
      if h : a = b then isTrue (by rw [h]) else isFalse (by simp [h])
    | Except.ok _, Except.error _ => isFalse (by simp)
    | Except.error _, Except.ok _ => isFalse (by simp)

/-- A cell value: numeric pandas scalars as rationals, everything else as
strings. -/
inductive CVal where
  | num (q : ℚ)
  | str (s : String)
deriving DecidableEq

/-- A named column with its dtype flag (`isNumeric` models a numeric pandas
dtype, as tested by `np.issubdtype(dtype, np.number)`) and its cells. -/
structure Column where
  name : String
  isNumeric : Bool
  values : List (Option CVal)
deriving DecidableEq

/-- A DataFrame: the index length (`len(df)`) plus the columns. -/
structure DF where
  nrows : ℕ
  cols : List Column
deriving DecidableEq

/-- `df[col].isnull().sum()`. -/
def nullCount (c : Column) : ℕ := c.values.countP fun o => o.isNone

/-- The non-null cells of a column, in order. -/
def nonNullCells (c : Column) : List CVal := c.values.filterMap id

/-- The non-null numeric cells of a column, in order (what the pandas
statistics with `skipna=True` operate on). -/
def cellsQ (c : Column) : List ℚ :=
  c.values.filterMap fun o =>
    match o with
    | some (CVal.num q) => some q
    | _ => none

def colNames (df : DF) : List String := df.cols.map Column.name

/-- Numeric-dtype columns hold only numeric cells; true of every real pandas
frame, where a float/int column cannot contain a string. -/
def wfNumeric (df : DF) : Bool :=
  df.cols.all fun c =>
    !c.isNumeric || c.values.all fun o =>
      match o with
      | some (CVal.str _) => false
      | _ => true

/-- `Series.median()` over the non-null values; `none` models the NaN that
pandas returns on an empty series. -/
def medianQ (l : List ℚ) : Option ℚ :=
  match l with
  | [] => none
  | _ :: _ =>
    let s := l.insertionSort (· ≤ ·)
    let n := s.length
    if n % 2 = 1 then some (s.getD (n / 2) 0)
    else some ((s.getD (n / 2 - 1) 0 + s.getD (n / 2) 0) / 2)

/-- `Series.mean()` over the non-null values; `none` models NaN on empty. -/
def meanQ (l : List ℚ) : Option ℚ :=
  match l with
  | [] => none
  | _ :: _ => some (l.sum / (l.length : ℚ))

/-- The sort order pandas uses inside `Series.mode()` (only the tie-break
among most-frequent values matters). -/
def cvLt : CVal → CVal → Bool
  | CVal.num a, CVal.num b => decide (a < b)
  | CVal.num _, CVal.str _ => true
  | CVal.str _, CVal.num _ => false
  | CVal.str a, CVal.str b => decide (a < b)

/-- `Series.mode()[0]`: the least value among those of maximal multiplicity;
`none` when there are no non-null values, in which case `mode()` is empty and
the `[0]` lookup raises. -/
def mode0 (l : List CVal) : Option CVal :=
  match l with
  | [] => none
  | x :: _ =>
    some (l.foldl (fun a b =>
      if l.count a < l.count b ∨ (l.count b = l.count a ∧ cvLt b a = true)
      then b else a) x)

/-- Fill one cell: `fillna` replaces nulls by the given value (a `none` fill
value models `fillna(NaN)`, which leaves the null in place). -/
def fillCell (v : Option CVal) : Option CVal → Option CVal
  | none => v
  | some x => some x

/-- `self.df[column].fillna(value, inplace=True)`: fill the nulls of every
column carrying the given label. -/
def fillColumn (df : DF) (column : String) (v : Option CVal) : DF :=
  ⟨df.nrows, df.cols.map fun c =>
    if c.name = column then { c with values := c.values.map (fillCell v) } else c⟩

/-- `self.df.drop(columns=[column])`.  (The missing-label KeyError path is
not modelled: at its only call site the label comes from the missingness
report of the same frame.) -/
def dropColumn (df : DF) (column : String) : DF :=
  ⟨df.nrows, df.cols.filter fun c => decide (c.name ≠ column)⟩

/-- Keep the entries of `vs` whose position is marked `true` in `mask`. -/
def maskFilter (mask : List Bool) (vs : List α) : List α :=
  (mask.zip vs).filterMap fun p => if p.1 then some p.2 else none

/-- `self.df.dropna(subset=[column])`: drop every row whose cell in the named
column is null. -/
def dropRowsWhereNull (df : DF) (column : String) : DF :=
  match df.cols.find? (fun c => c.name == column) with
  | none => df
  | some c =>
    let mask := c.values.map Option.isSome
    ⟨mask.countP (fun b => b),
     df.cols.map fun c2 => { c2 with values := maskFilter mask c2.values }⟩

/-- One row of the missingness report. -/
structure MissEntry where
  name : String
  null_count : ℕ
  null_percentage : ℚ
deriving DecidableEq

/-- The report row for a column of a frame with `n` rows:
`null_percentage = 100 * null_count / len(df)`. -/
def missEntryOf (n : ℕ) (c : Column) : MissEntry :=
  ⟨c.name, nullCount c, 100 * (nullCount c : ℚ) / (n : ℚ)⟩

/-- The descending order used by
`sort_values('null_percentage', ascending=False)`. -/
def missGE (a b : MissEntry) : Prop := b.null_percentage ≤ a.null_percentage

instance : DecidableRel missGE := fun _ _ => inferInstanceAs (Decidable (_ ≤ _))

instance : IsTotal MissEntry missGE := ⟨fun a b => le_total b.null_percentage a.null_percentage⟩

instance : IsTrans MissEntry missGE := ⟨fun _ _ _ hab hbc => le_trans hbc hab⟩

/-- `DataFrameTransform.identify_missing_values`: the rows with
`null_count > 0`, sorted descending by `null_percentage`. -/
def identify_missing_values (df : DF) : List MissEntry :=
  ((df.cols.map (missEntryOf df.nrows)).filter
      (fun e => decide (0 < e.null_count))).insertionSort missGE

/-- Exceptions the remediation path can raise. -/
inductive PdErr where
  | invalidStatistic  -- the ValueError raised for a bad impute_type
  | keyError          -- `mode()[0]` on an empty mode result
deriving DecidableEq

/-- `DataFrameTransform.impute_column(column, impute_type)`: reject a
statistic outside {median, mean}; numeric columns are filled with the chosen
statistic (a NaN statistic, from an all-null column, fills nothing);
non-numeric columns are filled with `mode()[0]`, which raises on an all-null
column. -/
def impute_column (df : DF) (column : String) (impute_type : String) :
    Except PdErr DF :=
  if impute_type ≠ "median" ∧ impute_type ≠ "mean" then
    Except.error PdErr.invalidStatistic
  else
    match df.cols.find? (fun c => c.name == column) with
    | none => Except.error PdErr.keyError
    | some c =>
      if c.isNumeric then
        Except.ok (fillColumn df column
          ((if impute_type = "median" then medianQ (cellsQ c) else meanQ (cellsQ c)).map
            CVal.num))
      else
        match mode0 (nonNullCells c) with
        | none => Except.error PdErr.keyError
        | some m => Except.ok (fillColumn df column (some m))

/-- The loop of `DataFrameTransform.handle_missing_values` over the rows of
the missingness report: impute (always with the default `'median'`) or drop
rows when the percentage is within the threshold, drop the column when it is
above. -/
def processColumns (t : ℚ) (method : String) :
    List MissEntry → DF → Except PdErr DF
  | [], df => Except.ok df
  | e :: rest, df =>
    if e.null_percentage ≤ t then
      if method = "impute" then
        match impute_column df e.name "median" with
        | Except.ok df2 => processColumns t method rest df2
        | Except.error err => Except.error err
      else if method = "remove" then
        processColumns t method rest (dropRowsWhereNull df e.name)
      else
        processColumns t method rest df
    else
      processColumns t method rest (dropColumn df e.name)

/-- `DataFrameTransform.handle_missing_values(threshold_percentage, method)`. -/
def handle_missing_values (df : DF) (threshold_percentage : ℚ)
    (method : String) : Except PdErr DF :=
  processColumns threshold_percentage method (identify_missing_values df) df

/-- Modelled from the spec: the remediation loop applying the policy's
`impute_statistic` (the source loop always calls `impute_column` with its
default statistic instead). -/
def processColumnsSpec (t : ℚ) (method statistic : String) :
    List MissEntry → DF → Except PdErr DF
  | [], df => Except.ok df
  | e :: rest, df =>
    if e.null_percentage ≤ t then
      if method = "impute" then
        match impute_column df e.name statistic with
        | Except.ok df2 => processColumnsSpec t method statistic rest df2
        | Except.error err => Except.error err
      else if method = "remove" then
        processColumnsSpec t method statistic rest (dropRowsWhereNull df e.name)
      else
        processColumnsSpec t method statistic rest df
    else
      processColumnsSpec t method statistic rest (dropColumn df e.name)

/-- Modelled from the spec: `remediate(policy)` for a policy
(threshold_percentage, method, impute_statistic). -/
def remediate_spec (df : DF) (t : ℚ) (method statistic : String) :
    Except PdErr DF :=
  processColumnsSpec t method statistic (identify_missing_values df) df

/-- numpy/pandas rounding: round half to even. -/
def roundHalfEven (q : ℚ) : ℤ :=
  let f := ⌊q⌋
  let r := q - (f : ℚ)
  if r < 1/2 then f
  else if 1/2 < r then f + 1
  else if f % 2 = 0 then f else f + 1

/-- `.round(2)` as used by `DataFrameInfo.get_missing_values`. -/
def round2 (q : ℚ) : ℚ := (roundHalfEven (100 * q) : ℚ) / 100

/-- `DataFrameInfo.get_missing_values`: rounded percentages, produced in
column order with no sorting. -/
def get_missing_values (df : DF) : List (String × ℚ) :=
  (df.cols.map fun c =>
    (c.name, round2 (100 * (nullCount c : ℚ) / (df.nrows : ℚ)))).filter
    fun p => decide (0 < p.2)

/-! ### The skew-correction module (`remove_skew.py`) -/

/-- The mean of a list of rationals (`xs.sum / n`; only ever used under
`3 ≤ length`). -/
def qmean (xs : List ℚ) : ℚ := xs.sum / (xs.length : ℚ)

/-- The k-th central sum `Σ (x - mean)^k`. -/
def centralSum (xs : List ℚ) (k : ℕ) : ℚ :=
  (xs.map fun x => (x - qmean xs) ^ k).sum

/-- The square of the adjusted Fisher-Pearson skewness coefficient computed by
`Series.skew()`, namely `G1 = n * sqrt(n-1) / (n-2) * m3 / m2^(3/2)` with
`m2, m3` the raw central sums, so `G1^2` is the rational
`n^2 (n-1) m3^2 / ((n-2)^2 m2^3)`.  For a constant column (`m2 = 0`) pandas
defines the skewness as 0, and indeed `m3 = 0` gives 0 here. -/
def skewSq (xs : List ℚ) : ℚ :=
  ((xs.length : ℚ) ^ 2 * ((xs.length : ℚ) - 1) * centralSum xs 3 ^ 2) /
    (((xs.length : ℚ) - 2) ^ 2 * centralSum xs 2 ^ 3)

/-- `|Series.skew()| > threshold` on the non-null values of a column: pandas
returns NaN (which fails every comparison) when fewer than three values are
present; otherwise `|G1| > t` iff `t < 0` or `t^2 < G1^2`. -/
def isSkewedB (xs : List ℚ) (t : ℚ) : Bool :=
  decide (3 ≤ xs.length) && (decide (t < 0) || decide (t ^ 2 < skewSq xs))

/-- `SkewTransform.identify_skewed_columns(threshold)`: the numeric columns,
in frame order, whose absolute skewness exceeds the threshold. -/
def identify_skewed_columns (df : DF) (threshold : ℚ) : List String :=
  ((df.cols.filter fun c => c.isNumeric).filter
      fun c => isSkewedB (cellsQ c) threshold).map Column.name

/-- `(self.df[column] > 0).all()`: every cell is a strictly positive number
(a null fails the comparison, so an all-positive-but-null column is not
all-positive). -/
def allPosB (c : Column) : Bool :=
  c.values.all fun o =>
    match o with
    | some (CVal.num q) => decide (0 < q)
    | _ => false

/-- `SkewTransform.transform_box_cox(threshold)`, parametrised by the external
`scipy.stats.boxcox` fit (whose fitted parameter the source discards).
Returns the transformed frame together with the names printed by the
"contains non-positive values" notices. -/
def transform_box_cox (boxcox : List ℚ → List ℚ) (df : DF) (threshold : ℚ) :
    DF × List String :=
  let skewed := identify_skewed_columns df threshold
  (⟨df.nrows, df.cols.map fun c =>
      if skewed.contains c.name && allPosB c then
        { c with values := (boxcox (cellsQ c)).map fun q => some (CVal.num q) }
      else c⟩,
   (df.cols.filter fun c => skewed.contains c.name && !allPosB c).map Column.name)

/-- A real-valued cell, the codomain of the log transform. -/
inductive RVal where
  | num (r : ℝ)
  | str (s : String)

/-- A column after the skew transform, with real-valued cells. -/
structure RColumn where
  name : String
  isNumeric : Bool
  values : List (Option RVal)

/-- `np.log1p`. -/
noncomputable def log1p (x : ℝ) : ℝ := Real.log (1 + x)

/-- What `np.log1p(series.clip(lower=0))` does to one cell. -/
noncomputable def logCell : CVal → RVal
  | CVal.num q => RVal.num (log1p (max (q : ℝ) 0))
  | CVal.str s => RVal.str s

/-- The identity embedding of a cell into real-valued cells. -/
def castCell : CVal → RVal
  | CVal.num q => RVal.num ((q : ℝ))
  | CVal.str s => RVal.str s

/-- `SkewTransform.transform_log(threshold)`: each skewed column is clipped
below at 0 and mapped through `log1p`; every other column is untouched. -/
noncomputable def transform_log (df : DF) (threshold : ℚ) : List RColumn :=
  let skewed := identify_skewed_columns df threshold
  df.cols.map fun c =>
    ⟨c.name, c.isNumeric,
      c.values.map (Option.map (if skewed.contains c.name then logCell else castCell))⟩

/-- The inverse map `x ↦ exp(x) - 1` on a real-valued cell. -/
noncomputable def expm1Cell : RVal → RVal
  | RVal.num r => RVal.num (Real.exp r - 1)
  | RVal.str s => RVal.str s

/-! ### The conversion module (`DataTransformation` in `data_transformation.py`) -/

/-- Exceptions of the conversion path. -/
inductive PyErr where
  | typeError       -- subscripting a non-subscriptable object
  | attributeError  -- accessing a missing attribute
deriving DecidableEq

/-- What `DataTransformation.__init__` can store in `self.df`.  The source
executes `self.df = df.copy` (no call parentheses), which binds the `copy`
method itself rather than the copied frame. -/
inductive Stored where
  | frame (df : DF)
  | boundCopy (df : DF)
deriving DecidableEq

/-- `DataTransformation.__init__(df)`. -/
def dataTransformationInit (df : DF) : Stored := Stored.boundCopy df

/-- `self.df[column]`-style access: a bound method is not subscriptable, so a
TypeError is raised unless an actual frame is stored. -/
def storedFrame : Stored → Except PyErr DF
  | Stored.frame d => Except.ok d
  | Stored.boundCopy _ => Except.error PyErr.typeError

/-- DataFrame attribute access such as `self.df.applymap`: method objects
have no such attribute, so an AttributeError is raised unless an actual frame
is stored. -/
def storedFrameAttr : Stored → Except PyErr DF
  | Stored.frame d => Except.ok d
  | Stored.boundCopy _ => Except.error PyErr.attributeError

/-- `x.strip() if isinstance(x, str) else x` on one cell. -/
def stripCell : Option CVal → Option CVal
  | some (CVal.str s) => some (CVal.str s.trim)
  | o => o

/-- `DataTransformation.remove_whitespace`. -/
def remove_whitespace (s : Stored) : Except PyErr DF := do
  let d ← storedFrameAttr s
  pure ⟨d.nrows, d.cols.map fun c => { c with values := c.values.map stripCell }⟩

/-- `self.df[column] = f(self.df[column])` for a column-level conversion. -/
def setColumn (d : DF) (column : String)
    (f : List (Option CVal) → List (Option CVal)) : DF :=
  ⟨d.nrows, d.cols.map fun c =>
    if c.name = column then { c with values := f c.values } else c⟩

/-- `DataTransformation.datetime_date_column`, parametrised by the external
`pd.to_datetime(..., dayfirst=True)`. -/
def datetime_date_column (toDatetime : List (Option CVal) → List (Option CVal))
    (s : Stored) (date_column : String) : Except PyErr DF := do
  let d ← storedFrame s
  pure (setColumn d date_column toDatetime)

/-- `DataTransformation.float_term`, parametrised by the external
`.str.extract(r'(\d+)').astype(float)`. -/
def float_term (extractFloat : List (Option CVal) → List (Option CVal))
    (s : Stored) (term_column : String) : Except PyErr DF := do
  let d ← storedFrame s
  pure (setColumn d term_column extractFloat)

/-- `DataTransformation.categorical_cat_column`, parametrised by the external
`.astype('category')`. -/
def categorical_cat_column (toCategory : List (Option CVal) → List (Option CVal))
    (s : Stored) (cat_column : String) : Except PyErr DF := do
  let d ← storedFrame s
  pure (setColumn d cat_column toCategory)

/-- `DataTransformation.categorical_numerical`, parametrised by the external
`pd.factorize(...)[0] + 1`. -/
def categorical_numerical (factorize : List (Option CVal) → List (Option CVal))
    (s : Stored) (category_column : String) : Except PyErr DF := do
  let d ← storedFrame s
  pure (setColumn d category_column factorize)

/-- `DataTransformation.convert_to_float`, parametrised by the external
`.astype(float)`. -/
def convert_to_float (toFloat : List (Option CVal) → List (Option CVal))
    (s : Stored) (column : String) : Except PyErr DF := do
  let d ← storedFrame s
  pure (setColumn d column toFloat)

/-! ### Concrete frames used in the concrete theorems below -/

/-- A frame with one numeric column `income = [1000, null, 3000, 4000]`. -/
def dfIncome : DF :=
  ⟨4, [⟨"income", true,
        [some (CVal.num 1000), none, some (CVal.num 3000), some (CVal.num 4000)]⟩]⟩

/-- `dfIncome` with the null filled by the median 3000. -/
def dfIncomeMedian : DF :=
  ⟨4, [⟨"income", true,
        [some (CVal.num 1000), some (CVal.num 3000), some (CVal.num 3000),
         some (CVal.num 4000)]⟩]⟩

/-- `dfIncome` with the null filled by the mean 8000/3. -/
def dfIncomeMean : DF :=
  ⟨4, [⟨"income", true,
        [some (CVal.num 1000), some (CVal.num (8000/3)), some (CVal.num 3000),
         some (CVal.num 4000)]⟩]⟩

/-- A frame with one numeric column holding one null out of three rows, so
its null percentage is the non-terminating 100/3. -/
def dfThird : DF :=
  ⟨3, [⟨"a", true, [some (CVal.num 1), none, some (CVal.num 1)]⟩]⟩

/-- A frame whose single numeric column is entirely null. -/
def dfAllNullNum : DF := ⟨2, [⟨"a", true, [none, none]⟩]⟩

/-- A frame whose single non-numeric column is entirely null. -/
def dfAllNullStr : DF := ⟨2, [⟨"s", false, [none, none]⟩]⟩

/-- A frame with a partially-null numeric column `a = [1, 2, null, 4]`. -/
def dfPartial : DF :=
  ⟨4, [⟨"a", true, [some (CVal.num 1), some (CVal.num 2), none, some (CVal.num 4)]⟩]⟩

/-- `dfPartial` with the null filled by the median 2. -/
def dfPartialFilled : DF :=
  ⟨4, [⟨"a", true,
        [some (CVal.num 1), some (CVal.num 2), some (CVal.num 2), some (CVal.num 4)]⟩]⟩

/-- An `age` column over ten rows with 3 nulls (30%, above a threshold of
10, so it will be dropped). -/
def ageCol : Column :=
  ⟨"age", true,
   [some (CVal.num 25), some (CVal.num 30), none, some (CVal.num 40),
    some (CVal.num 35), none, some (CVal.num 28), none, some (CVal.num 45),
    some (CVal.num 50)]⟩

/-- An `income` column over ten rows with 1 null (10%, within a threshold of
10, so it will be imputed with its median 30). -/
def incomeCol : Column :=
  ⟨"income", true,
   [some (CVal.num 10), some (CVal.num 20), some (CVal.num 30), none,
    some (CVal.num 40), some (CVal.num 50), some (CVal.num 25),
    some (CVal.num 35), some (CVal.num 30), some (CVal.num 30)]⟩

/-- Ten rows with the `age` and `income` columns above. -/
def dfTwoCols : DF := ⟨10, [ageCol, incomeCol]⟩

/-- The expected remediation of `dfTwoCols` at threshold 10: `age` dropped,
`income` imputed with its median 30. -/
def dfTwoColsResult : DF :=
  ⟨10,
   [⟨"income", true,
     [some (CVal.num 10), some (CVal.num 20), some (CVal.num 30),
      some (CVal.num 30), some (CVal.num 40), some (CVal.num 50),
      some (CVal.num 25), some (CVal.num 35), some (CVal.num 30),
      some (CVal.num 30)]⟩]⟩

/-- One row, one numeric column, no nulls at all. -/
def dfNoNull : DF := ⟨1, [⟨"b", true, [some (CVal.num 1)]⟩]⟩

/-- A heavily right-skewed numeric column `[1, 1, 1, 1, 100]`. -/
def dfSkewed : DF :=
  ⟨5, [⟨"a", true,
        [some (CVal.num 1), some (CVal.num 1), some (CVal.num 1),
         some (CVal.num 1), some (CVal.num 100)]⟩]⟩

/-- A symmetric numeric column `[1, 2, 3, 4, 5]` (skewness 0). -/
def dfLinear : DF :=
  ⟨5, [⟨"b", true,
        [some (CVal.num 1), some (CVal.num 2), some (CVal.num 3),
         some (CVal.num 4), some (CVal.num 5)]⟩]⟩

/-- A heavily skewed numeric column `[0, 0, 0, 0, 99]` containing a value
`≤ 0`, so Box-Cox must skip it. -/
def dfWithZero : DF :=
  ⟨5, [⟨"z", true,
        [some (CVal.num 0), some (CVal.num 0), some (CVal.num 0),
         some (CVal.num 0), some (CVal.num 99)]⟩]⟩

/-- Column provenance under imputation passes: the image column keeps the
name and dtype and preserves every existing non-null cell. -/
def Fills (c c2 : Column) : Prop :=
  c2.name = c.name ∧ c2.isNumeric = c.isNumeric ∧
  (∀ x : CVal, some x ∈ c.values → some x ∈ c2.values)

/-- A column that an impute pass cannot change: numeric with no non-null
numeric cell (its median is NaN, so `fillna` is a no-op) and with a null
percentage within the threshold (so it is never dropped). -/
def ImputeStuck (n : ℕ) (t : ℚ) (c : Column) : Prop :=
  c.isNumeric = true ∧ cellsQ c = [] ∧
    100 * (nullCount c : ℚ) / (n : ℚ) ≤ t

/-! ### Theorems -/

section ConcreteEvaluation

attribute [local semireducible] Rat.add Rat.mul Rat.inv Rat.sub

/-- C10: `DataTransformation.__init__` stores the bound method `df.copy`
rather than a copy of the data, so the stored `df` attribute is not a frame,
and every subsequent conversion operation raises (an AttributeError for the
`applymap` access, a TypeError for the `self.df[column]` subscripts) instead
of returning a converted frame. -/
theorem claim_C10_theorem (df : DF)
    (f : List (Option CVal) → List (Option CVal)) (col : String) :
    dataTransformationInit df = Stored.boundCopy df ∧
    (∀ d, dataTransformationInit df ≠ Stored.frame d) ∧
    remove_whitespace (dataTransformationInit df) = Except.error PyErr.attributeError ∧
    datetime_date_column f (dataTransformationInit df) col = Except.error PyErr.typeError ∧
    float_term f (dataTransformationInit df) col = Except.error PyErr.typeError ∧
    categorical_cat_column f (dataTransformationInit df) col = Except.error PyErr.typeError ∧
    categorical_numerical f (dataTransformationInit df) col = Except.error PyErr.typeError ∧
    convert_to_float f (dataTransformationInit df) col = Except.error PyErr.typeError :=
  ⟨rfl, fun _ h => Stored.noConfusion h, rfl, rfl, rfl, rfl, rfl, rfl⟩

/-- C4: the source raises no dedicated error on an all-null column.  Imputing
the all-null numeric column `a` succeeds and silently writes nothing (the
nulls survive), and imputing the all-null non-numeric column `s` propagates
the opaque KeyError of `mode()[0]` on an empty mode. -/
theorem claim_C4_theorem :
    impute_column dfAllNullNum "a" "median" = Except.ok dfAllNullNum ∧
    (∃ c ∈ dfAllNullNum.cols, 0 < nullCount c) ∧
    impute_column dfAllNullStr "s" "median" = Except.error PdErr.keyError :=
  ⟨by decide, ⟨⟨"a", true, [none, none]⟩, by decide, by decide⟩, by decide⟩

/-- C1 counterexample: at threshold 100 the all-null numeric column `a` has
null percentage 100 ≤ 100, so it is processed by imputation, yet
`handle_missing_values` completes with the column still containing nulls —
the claim's "every column that was processed by imputation contains zero
nulls" fails.  And at threshold −1 a null-free column `b` has original null
percentage 0 exceeding the threshold, yet it is never in the report and so
survives — "every column whose original null percentage exceeded t is
absent" also fails as stated. -/
theorem claim_C1_counterexample :
    (handle_missing_values dfAllNullNum 100 "impute" = Except.ok dfAllNullNum ∧
      (∃ c ∈ dfAllNullNum.cols, 0 < nullCount c)) ∧
    (handle_missing_values dfNoNull (-1) "impute" = Except.ok dfNoNull ∧
      (-1 : ℚ) < 100 * (nullCount ⟨"b", true, [some (CVal.num 1)]⟩ : ℚ) / (dfNoNull.nrows : ℚ) ∧
      (∃ c ∈ dfNoNull.cols, c.name = "b")) :=
  ⟨⟨by decide, ⟨⟨"a", true, [none, none]⟩, by decide, by decide⟩⟩,
   ⟨by decide, by decide, ⟨⟨"b", true, [some (CVal.num 1)]⟩, by decide, by decide⟩⟩⟩

/-- C2 counterexample: `handle_missing_values` cannot apply a requested
`mean` statistic — on `income = [1000, null, 3000, 4000]` with threshold 30
it fills the median 3000 (the hard-coded default of its `impute_column`
call), which differs from the mean fill 8000/3 that the spec's
`remediate` with `impute_statistic = mean` produces. -/
theorem claim_C2_counterexample :
    handle_missing_values dfIncome 30 "impute" = Except.ok dfIncomeMedian ∧
    remediate_spec dfIncome 30 "impute" "mean" = Except.ok dfIncomeMean ∧
    dfIncomeMedian ≠ dfIncomeMean := by
  refine ⟨by decide, by decide, by decide⟩

/-- C3 counterexample: `identify_missing_values` does not round.  On one null
out of three rows it reports the exact percentage 100/3, which differs from
the claimed two-decimal rounding 33.33. -/
theorem claim_C3_counterexample :
    identify_missing_values dfThird = [⟨"a", 1, 100/3⟩] ∧
    (100 : ℚ)/3 ≠ round2 (100 * (1 : ℚ) / 3) := by
  refine ⟨by decide, by decide⟩

/-- C9 counterexample: on the all-null numeric column `a` the valid statistic
`median` is accepted, yet nothing is filled — the run succeeds and the
column's nulls survive, refuting "when the statistic is valid it fills that
column's nulls". -/
theorem claim_C9_counterexample :
    impute_column dfAllNullNum "a" "median" = Except.ok dfAllNullNum ∧
    (∃ c ∈ dfAllNullNum.cols, 0 < nullCount c) :=
  ⟨by decide, ⟨⟨"a", true, [none, none]⟩, by decide, by decide⟩⟩

end ConcreteEvaluation

/-! ### Helper lemmas -/

theorem processColumns_eq_spec_median (t : ℚ) (method : String) :
    ∀ (l : List MissEntry) (df : DF),
      processColumns t method l df = processColumnsSpec t method "median" l df
  | [], _ => rfl
  | e :: rest, df => by
    simp only [processColumns, processColumnsSpec]
    split
    · split
      · cases impute_column df e.name "median" with
        | ok df2 => exact processColumns_eq_spec_median t method rest df2
        | error err => rfl
      · split
        · exact processColumns_eq_spec_median t method rest _
        · exact processColumns_eq_spec_median t method rest df
    · exact processColumns_eq_spec_median t method rest _

theorem nullCount_fill_some (c : Column) (m : CVal) :
    nullCount { c with values := c.values.map (fillCell (some m)) } = 0 := by
  simp only [nullCount, List.countP_eq_zero, List.mem_map]
  rintro o ⟨o', _, rfl⟩
  cases o' <;> simp [fillCell]

theorem medianQ_isSome (l : List ℚ) (h : l ≠ []) : ∃ m, medianQ l = some m := by
  cases l with
  | nil => exact absurd rfl h
  | cons x xs => simp only [medianQ]; split <;> exact ⟨_, rfl⟩

theorem meanQ_isSome (l : List ℚ) (h : l ≠ []) : ∃ m, meanQ l = some m := by
  cases l with
  | nil => exact absurd rfl h
  | cons x xs => exact ⟨_, rfl⟩

theorem mode0_isSome (l : List CVal) (h : l ≠ []) : ∃ m, mode0 l = some m := by
  cases l with
  | nil => exact absurd rfl h
  | cons x xs => exact ⟨_, rfl⟩

theorem wf_col (df : DF) (hwf : wfNumeric df = true) (c : Column) (hc : c ∈ df.cols)
    (hn : c.isNumeric = true) :
    ∀ o ∈ c.values, ∀ s, o ≠ some (CVal.str s) := by
  have h1 := (List.all_eq_true.mp hwf) c hc
  rw [hn] at h1
  simp only [Bool.not_true, Bool.false_or] at h1
  intro o ho s hs
  have h2 := (List.all_eq_true.mp h1) o ho
  subst hs
  exact Bool.noConfusion (h2 : false = true)

theorem cellsQ_ne_nil (c : Column)
    (hnum : ∀ o ∈ c.values, ∀ s, o ≠ some (CVal.str s))
    (h : nonNullCells c ≠ []) : cellsQ c ≠ [] := by
  obtain ⟨x, hx⟩ := List.exists_mem_of_ne_nil _ h
  obtain ⟨o, ho, hox⟩ := List.mem_filterMap.mp hx
  cases x with
  | num q =>
    apply List.ne_nil_of_mem (a := q)
    exact List.mem_filterMap.mpr ⟨o, ho, by simp at hox; rw [hox]⟩
  | str s => exact absurd (by simp at hox; rw [hox]) (hnum o ho s)

/-! ### Claim theorems (continued) -/

/-- C2 amended: `handle_missing_values` never sees the policy's requested
statistic — it always imputes with `impute_column`'s default `median` (and,
inside `impute_column`, non-numeric columns always fall back to mode).  It
coincides with the spec's `remediate` exactly when the requested
`impute_statistic` is `median`. -/
theorem claim_C2_theorem (df : DF) (t : ℚ) (method : String) :
    handle_missing_values df t method = remediate_spec df t method "median" :=
  processColumns_eq_spec_median t method (identify_missing_values df) df

/-- C3 amended: the missingness report has one row per column with
`null_count > 0`, carrying the exact (unrounded) percentage
`100 * null_count / row_count`, and is sorted descending by percentage.
(The report is a pure function of the frame: `identify_missing_values` only
reads it.) -/
theorem claim_C3_theorem (df : DF) :
    (∀ e : MissEntry, e ∈ identify_missing_values df ↔
      ∃ c ∈ df.cols, 0 < nullCount c ∧
        e = ⟨c.name, nullCount c, 100 * (nullCount c : ℚ) / (df.nrows : ℚ)⟩) ∧
    (identify_missing_values df).Sorted missGE := by
  constructor
  · intro e
    unfold identify_missing_values
    rw [(List.perm_insertionSort missGE _).mem_iff, List.mem_filter]
    constructor
    · rintro ⟨hmem, hpos⟩
      obtain ⟨c, hc, rfl⟩ := List.mem_map.mp hmem
      exact ⟨c, hc, by simpa [missEntryOf] using hpos, rfl⟩
    · rintro ⟨c, hc, hpos, rfl⟩
      exact ⟨List.mem_map.mpr ⟨c, hc, rfl⟩, by simpa [missEntryOf] using hpos⟩
  · exact List.sorted_insertionSort missGE _

/-- C9 amended: `impute_column` fails with the invalid-statistic ValueError
exactly when the requested statistic is outside {median, mean} — for any
column, numeric or not, since the check precedes the dtype dispatch; when the
statistic is valid and the named column exists and has at least one non-null
value, it fills that column's nulls and leaves every differently-named column
untouched (mode is implicit for non-numeric columns and not selectable). -/
theorem claim_C9_theorem (df : DF) (column stat : String)
    (hwf : wfNumeric df = true) :
    (impute_column df column stat = Except.error PdErr.invalidStatistic ↔
      (stat ≠ "median" ∧ stat ≠ "mean")) ∧
    ((stat = "median" ∨ stat = "mean") →
      ∀ c, df.cols.find? (fun c0 => c0.name == column) = some c →
        nonNullCells c ≠ [] →
        ∃ df2, impute_column df column stat = Except.ok df2 ∧
          df2.nrows = df.nrows ∧
          (∀ c2 ∈ df2.cols, c2.name = column → nullCount c2 = 0) ∧
          (∀ (i : ℕ) (c0 : Column), df.cols[i]? = some c0 → c0.name ≠ column →
            df2.cols[i]? = some c0)) := by
  have fill_ok : ∀ (m : CVal),
      (∀ c2 ∈ (fillColumn df column (some m)).cols, c2.name = column → nullCount c2 = 0) ∧
      (∀ (i : ℕ) (c0 : Column), df.cols[i]? = some c0 → c0.name ≠ column →
        (fillColumn df column (some m)).cols[i]? = some c0) := by
    intro m
    constructor
    · intro c2 hc2 hname
      obtain ⟨c0, _, rfl⟩ := List.mem_map.mp hc2
      by_cases h0 : c0.name = column
      · rw [if_pos h0]; exact nullCount_fill_some c0 m
      · rw [if_neg h0] at hname ⊢; exact absurd hname h0
    · intro i c0 hget hname
      simp only [fillColumn, List.getElem?_map, hget, Option.map_some']
      rw [if_neg hname]
  constructor
  · by_cases h : stat ≠ "median" ∧ stat ≠ "mean"
    · simp only [impute_column, if_pos h]
      exact ⟨fun _ => h, fun _ => trivial⟩
    · simp only [impute_column, if_neg h]
      constructor
      · intro herr
        exfalso
        cases hfind : df.cols.find? (fun c0 => c0.name == column) with
        | none =>
          simp only [hfind] at herr
          exact PdErr.noConfusion (Except.error.inj herr)
        | some c =>
          simp only [hfind] at herr
          by_cases hnum : c.isNumeric
          · rw [if_pos hnum] at herr; exact Except.noConfusion herr
          · rw [if_neg hnum] at herr
            cases hmode : mode0 (nonNullCells c) with
            | none =>
              simp only [hmode] at herr
              exact PdErr.noConfusion (Except.error.inj herr)
            | some m =>
              simp only [hmode] at herr
              exact Except.noConfusion herr
      · intro hstat; exact absurd hstat h
  · intro hstat c hfind hnn
    have hvalid : ¬(stat ≠ "median" ∧ stat ≠ "mean") := by
      rcases hstat with h | h <;> simp [h]
    have hc : c ∈ df.cols := List.mem_of_find?_eq_some hfind
    simp only [impute_column, if_neg hvalid, hfind]
    by_cases hnum : c.isNumeric
    · rw [if_pos hnum]
      have hq : cellsQ c ≠ [] := cellsQ_ne_nil c (wf_col df hwf c hc hnum) hnn
      have hv : ∃ m, (if stat = "median" then medianQ (cellsQ c) else meanQ (cellsQ c)) = some m := by
        split
        · exact medianQ_isSome _ hq
        · exact meanQ_isSome _ hq
      obtain ⟨m, hm⟩ := hv
      refine ⟨fillColumn df column (some (CVal.num m)), ?_, rfl, (fill_ok _).1, (fill_ok _).2⟩
      rw [hm]; rfl
    · rw [if_neg hnum]
      obtain ⟨m, hm⟩ := mode0_isSome _ hnn
      rw [hm]
      exact ⟨fillColumn df column (some m), rfl, rfl, (fill_ok _).1, (fill_ok _).2⟩

/-- C9 witness: the amended theorem applied to the concrete frame with
`a = [1, 2, null, 4]` and the valid statistic `median`. -/
theorem claim_C9_witness :
    (impute_column dfPartial "a" "median" = Except.error PdErr.invalidStatistic ↔
      (("median" : String) ≠ "median" ∧ ("median" : String) ≠ "mean")) ∧
    ((("median" : String) = "median" ∨ ("median" : String) = "mean") →
      ∀ c, dfPartial.cols.find? (fun c0 => c0.name == "a") = some c →
        nonNullCells c ≠ [] →
        ∃ df2, impute_column dfPartial "a" "median" = Except.ok df2 ∧
          df2.nrows = dfPartial.nrows ∧
          (∀ c2 ∈ df2.cols, c2.name = "a" → nullCount c2 = 0) ∧
          (∀ (i : ℕ) (c0 : Column), dfPartial.cols[i]? = some c0 → c0.name ≠ "a" →
            df2.cols[i]? = some c0)) :=
  claim_C9_theorem dfPartial "a" "median" (by decide)

section SkewTheorems

attribute [local semireducible] Rat.add Rat.mul Rat.inv Rat.sub

theorem contains_of_mem {l : List String} {a : String} (h : a ∈ l) :
    l.contains a = true :=
  List.elem_iff.mpr h

/-- C5: `identify_skewed_columns` returns exactly the names of the numeric
columns whose absolute adjusted Fisher-Pearson skewness exceeds the
threshold, in frame column order, and never the name of anything but a
numeric column; concretely `[1,1,1,1,100]` at threshold 2 is returned and
`[1,2,3,4,5]` at threshold 2 is not. -/
theorem claim_C5_theorem :
    (∀ (df : DF) (t : ℚ) (name : String),
      name ∈ identify_skewed_columns df t →
        ∃ c ∈ df.cols, c.name = name ∧ c.isNumeric = true ∧
          isSkewedB (cellsQ c) t = true) ∧
    (∀ (df : DF) (t : ℚ) (c : Column),
      c ∈ df.cols → c.isNumeric = true → isSkewedB (cellsQ c) t = true →
        c.name ∈ identify_skewed_columns df t) ∧
    (∀ (df : DF) (t : ℚ),
      (identify_skewed_columns df t).Sublist (df.cols.map Column.name)) ∧
    identify_skewed_columns dfSkewed 2 = ["a"] ∧
    identify_skewed_columns dfLinear 2 = [] := by
  refine ⟨?_, ?_, ?_, by decide, by decide⟩
  · intro df t name hmem
    obtain ⟨c, hc, rfl⟩ := List.mem_map.mp hmem
    obtain ⟨hc1, hsk⟩ := List.mem_filter.mp hc
    obtain ⟨hc2, hnum⟩ := List.mem_filter.mp hc1
    exact ⟨c, hc2, rfl, hnum, hsk⟩
  · intro df t c hc hnum hsk
    exact List.mem_map.mpr
      ⟨c, List.mem_filter.mpr ⟨List.mem_filter.mpr ⟨hc, hnum⟩, hsk⟩, rfl⟩
  · intro df t
    exact ((List.filter_sublist _).trans (List.filter_sublist _)).map _

/-- C5 witness: the characterisation applied to the skewed concrete column
`a = [1,1,1,1,100]` at threshold 2. -/
theorem claim_C5_witness : ("a" : String) ∈ identify_skewed_columns dfSkewed 2 :=
  claim_C5_theorem.2.1 dfSkewed 2
    ⟨"a", true,
     [some (CVal.num 1), some (CVal.num 1), some (CVal.num 1),
      some (CVal.num 1), some (CVal.num 100)]⟩
    (by decide) rfl (by decide)

/-- C6: `transform_box_cox` leaves any skewed column containing a value ≤ 0
completely unchanged and emits a notice naming it, without raising (the
function is total); and a column is replaced only when it is skewed with all
values strictly positive, in which case it carries the Box-Cox output. -/
theorem claim_C6_theorem (bc : List ℚ → List ℚ) (df : DF) (t : ℚ) :
    (∀ (i : ℕ) (c : Column), df.cols[i]? = some c →
      c.name ∈ identify_skewed_columns df t →
      (∃ q : ℚ, some (CVal.num q) ∈ c.values ∧ q ≤ 0) →
      (transform_box_cox bc df t).1.cols[i]? = some c ∧
        c.name ∈ (transform_box_cox bc df t).2) ∧
    (∀ (i : ℕ) (c c2 : Column), df.cols[i]? = some c →
      (transform_box_cox bc df t).1.cols[i]? = some c2 → c2 ≠ c →
      c.name ∈ identify_skewed_columns df t ∧ allPosB c = true ∧
        c2.values = (bc (cellsQ c)).map fun q => some (CVal.num q)) := by
  have hnotpos : ∀ (c : Column), (∃ q : ℚ, some (CVal.num q) ∈ c.values ∧ q ≤ 0) →
      allPosB c = false := by
    rintro c ⟨q, hq, hq0⟩
    cases hall : allPosB c with
    | false => rfl
    | true =>
      exfalso
      have hc := List.all_eq_true.mp hall _ hq
      exact absurd (of_decide_eq_true hc) (not_lt.mpr hq0)
  constructor
  · intro i c hget hskew hneg
    have hpos := hnotpos c hneg
    constructor
    · simp only [transform_box_cox, List.getElem?_map, hget, Option.map_some']
      rw [hpos, Bool.and_false, if_neg (by simp)]
    · simp only [transform_box_cox]
      refine List.mem_map.mpr ⟨c, List.mem_filter.mpr ⟨List.getElem?_mem hget, ?_⟩, rfl⟩
      rw [contains_of_mem hskew, hpos]
      rfl
  · intro i c c2 hget hget2 hne
    simp only [transform_box_cox, List.getElem?_map, hget, Option.map_some'] at hget2
    by_cases hcond : ((identify_skewed_columns df t).contains c.name && allPosB c) = true
    · rw [if_pos hcond] at hget2
      obtain ⟨hcont, hpos⟩ := Bool.and_eq_true_iff.mp hcond
      refine ⟨List.elem_iff.mp hcont, hpos, ?_⟩
      rw [← Option.some_inj.mp hget2]
    · rw [if_neg hcond] at hget2
      exact absurd (Option.some_inj.mp hget2).symm hne

/-- C6 witness: applied to the skewed column `z = [0,0,0,0,99]`, which
contains 0 ≤ 0: it is left unchanged and its name is noticed. -/
theorem claim_C6_witness :
    (transform_box_cox (fun l => l) dfWithZero 2).1.cols[0]? =
      some ⟨"z", true,
        [some (CVal.num 0), some (CVal.num 0), some (CVal.num 0),
         some (CVal.num 0), some (CVal.num 99)]⟩ ∧
    ("z" : String) ∈ (transform_box_cox (fun l => l) dfWithZero 2).2 :=
  (claim_C6_theorem (fun l => l) dfWithZero 2).1 0
    ⟨"z", true,
     [some (CVal.num 0), some (CVal.num 0), some (CVal.num 0),
      some (CVal.num 0), some (CVal.num 99)]⟩
    rfl (by decide) ⟨0, by decide, le_refl 0⟩

/-- C7: `transform_log` rewrites each skewed column cell-wise by
`x ↦ log1p(max(x, 0))` — nulls stay null — and on a skewed column whose
values were all ≥ 0 before clipping, the inverse map `x ↦ exp(x) - 1`
recovers the original values exactly. -/
theorem claim_C7_theorem (df : DF) (t : ℚ) :
    (∀ (i : ℕ) (c : Column), df.cols[i]? = some c →
      c.name ∈ identify_skewed_columns df t →
      (transform_log df t)[i]? =
        some ⟨c.name, c.isNumeric, c.values.map (Option.map logCell)⟩) ∧
    (∀ (i : ℕ) (c : Column), df.cols[i]? = some c →
      c.name ∈ identify_skewed_columns df t →
      (∀ q : ℚ, some (CVal.num q) ∈ c.values → 0 ≤ q) →
      ((transform_log df t)[i]?.map fun c2 => c2.values.map (Option.map expm1Cell)) =
        some (c.values.map (Option.map castCell))) := by
  have part1 : ∀ (i : ℕ) (c : Column), df.cols[i]? = some c →
      c.name ∈ identify_skewed_columns df t →
      (transform_log df t)[i]? =
        some ⟨c.name, c.isNumeric, c.values.map (Option.map logCell)⟩ := by
    intro i c hget hskew
    simp only [transform_log, List.getElem?_map, hget, Option.map_some']
    rw [contains_of_mem hskew]
    simp
  refine ⟨part1, ?_⟩
  intro i c hget hskew hnn
  rw [part1 i c hget hskew, Option.map_some']
  refine congrArg some ?_
  rw [List.map_map]
  refine List.map_congr_left ?_
  intro o ho
  cases o with
  | none => rfl
  | some v =>
    cases v with
    | str s => rfl
    | num q =>
      have hq : (0 : ℝ) ≤ (q : ℝ) := by exact_mod_cast hnn q ho
      simp only [Function.comp, Option.map_some', expm1Cell, logCell, castCell, log1p]
      rw [max_eq_left hq, Real.exp_log (by linarith), add_sub_cancel_left]

/-- C7 witness: applied to the skewed all-nonnegative column
`a = [1,1,1,1,100]` at threshold 2. -/
theorem claim_C7_witness :
    ((transform_log dfSkewed 2)[0]?.map fun c2 =>
        c2.values.map (Option.map expm1Cell)) =
      some ([some (CVal.num 1), some (CVal.num 1), some (CVal.num 1),
             some (CVal.num 1), some (CVal.num 100)].map (Option.map castCell)) :=
  (claim_C7_theorem dfSkewed 2).2 0
    ⟨"a", true,
     [some (CVal.num 1), some (CVal.num 1), some (CVal.num 1),
      some (CVal.num 1), some (CVal.num 100)]⟩
    rfl (by decide)
    (by
      intro q hq
      simp only [List.mem_cons, List.not_mem_nil, or_false, Option.some_inj,
        CVal.num.injEq] at hq
      rcases hq with rfl | rfl | rfl | rfl | rfl <;> norm_num)

end SkewTheorems

/-! ### Remediation-loop lemmas -/

theorem fillCell_none_eq_id : fillCell (none : Option CVal) = id :=
  funext fun o => by cases o <;> rfl

theorem fillColumn_none (df : DF) (n : String) : fillColumn df n none = df := by
  have h : ∀ c : Column,
      (if c.name = n then { c with values := c.values.map (fillCell none) } else c) = c := by
    rintro ⟨nm, b, vals⟩
    rw [fillCell_none_eq_id, List.map_id]
    exact ite_self _
  cases df with
  | mk nr cols =>
    simp only [fillColumn, h]
    rw [List.map_id']

theorem fillColumn_names (df : DF) (n : String) (v : Option CVal) :
    colNames (fillColumn df n v) = colNames df := by
  cases df with
  | mk nr cols =>
    simp only [colNames, fillColumn, List.map_map]
    refine List.map_congr_left fun c _ => ?_
    by_cases h : c.name = n
    · simp [h]
    · simp [h]

theorem fillColumn_fills (df : DF) (n : String) (v : Option CVal) :
    ∀ c2 ∈ (fillColumn df n v).cols, ∃ c ∈ df.cols, Fills c c2 := by
  intro c2 hc2
  obtain ⟨c, hc, rfl⟩ := List.mem_map.mp hc2
  refine ⟨c, hc, ?_⟩
  by_cases h : c.name = n
  · rw [if_pos h]
    refine ⟨rfl, rfl, fun x hx => ?_⟩
    have : fillCell v (some x) = some x := rfl
    exact this ▸ List.mem_map_of_mem (fillCell v) hx
  · rw [if_neg h]
    exact ⟨rfl, rfl, fun x hx => hx⟩

theorem dropColumn_mem (df : DF) (n : String) :
    ∀ c2 ∈ (dropColumn df n).cols, c2 ∈ df.cols ∧ c2.name ≠ n := by
  intro c2 hc2
  obtain ⟨h1, h2⟩ := List.mem_filter.mp hc2
  exact ⟨h1, of_decide_eq_true h2⟩

theorem dropColumn_names_sublist (df : DF) (n : String) :
    (colNames (dropColumn df n)).Sublist (colNames df) :=
  (List.filter_sublist _).map _

theorem mem_dropColumn (df : DF) (n : String) (c : Column) (hc : c ∈ df.cols)
    (hne : c.name ≠ n) : c ∈ (dropColumn df n).cols :=
  List.mem_filter.mpr ⟨hc, decide_eq_true hne⟩

theorem names_inj (df : DF) (hnd : (colNames df).Nodup) :
    ∀ c1 ∈ df.cols, ∀ c2 ∈ df.cols, c1.name = c2.name → c1 = c2 :=
  fun _ h1 _ h2 he => List.inj_on_of_nodup_map hnd h1 h2 he

theorem find?_pred : ∀ (l : List Column) (p : Column → Bool) (c : Column),
    l.find? p = some c → p c = true
  | [], _, _, h => by simp [List.find?] at h
  | d :: ds, p, c, h => by
    cases hd : p d with
    | true =>
      simp only [List.find?, hd] at h
      exact (Option.some_inj.mp h) ▸ hd
    | false =>
      simp only [List.find?, hd] at h
      exact find?_pred ds p c h

theorem find?_name_eq (df : DF) (n : String) (c : Column)
    (h : df.cols.find? (fun c0 => c0.name == n) = some c) :
    c ∈ df.cols ∧ c.name = n :=
  ⟨List.mem_of_find?_eq_some h, eq_of_beq (find?_pred _ _ _ h)⟩

theorem find?_of_nodup (df : DF) (hnd : (colNames df).Nodup) (c : Column)
    (hc : c ∈ df.cols) :
    df.cols.find? (fun c0 => c0.name == c.name) = some c := by
  cases df with
  | mk nr cols =>
    simp only [colNames] at hnd
    induction cols with
    | nil => cases hc
    | cons d ds ih =>
      cases hd : (d.name == c.name) with
      | true =>
        have hdc : d = c := by
          rcases List.mem_cons.mp hc with rfl | htail
          · rfl
          · exact absurd (List.mem_map_of_mem Column.name htail)
              (eq_of_beq hd ▸ (List.nodup_cons.mp hnd).1)
        show List.find? (fun c0 => c0.name == c.name) (d :: ds) = some c
        simp only [List.find?, hd]
        exact congrArg some hdc
      | false =>
        have htail : c ∈ ds := by
          rcases List.mem_cons.mp hc with rfl | htail
          · rw [beq_self_eq_true] at hd; exact Bool.noConfusion hd
          · exact htail
        show List.find? (fun c0 => c0.name == c.name) (d :: ds) = some c
        simp only [List.find?, hd]
        exact ih (List.nodup_cons.mp hnd).2 htail

theorem mem_identify (df : DF) (e : MissEntry) :
    e ∈ identify_missing_values df ↔
      ∃ c ∈ df.cols, 0 < nullCount c ∧ e = missEntryOf df.nrows c := by
  unfold identify_missing_values
  rw [(List.perm_insertionSort missGE _).mem_iff, List.mem_filter]
  constructor
  · rintro ⟨hmem, hpos⟩
    obtain ⟨c, hc, rfl⟩ := List.mem_map.mp hmem
    exact ⟨c, hc, by simpa [missEntryOf] using hpos, rfl⟩
  · rintro ⟨c, hc, hpos, rfl⟩
    exact ⟨List.mem_map.mpr ⟨c, hc, rfl⟩, by simpa [missEntryOf] using hpos⟩

theorem identify_names_nodup (df : DF) (hnd : (colNames df).Nodup) :
    ((identify_missing_values df).map MissEntry.name).Nodup := by
  have hperm : ((identify_missing_values df).map MissEntry.name).Perm
      (((df.cols.map (missEntryOf df.nrows)).filter
        (fun e => decide (0 < e.null_count))).map MissEntry.name) :=
    (List.perm_insertionSort missGE _).map _
  refine hperm.nodup_iff.mpr (List.Nodup.sublist ((List.filter_sublist _).map _) ?_)
  rw [List.map_map]
  exact hnd

theorem identify_eq_nil (df : DF) (h : ∀ c ∈ df.cols, nullCount c = 0) :
    identify_missing_values df = [] := by
  unfold identify_missing_values
  have hnil : (df.cols.map (missEntryOf df.nrows)).filter
      (fun e => decide (0 < e.null_count)) = [] := by
    rw [List.filter_eq_nil_iff]
    intro e he
    obtain ⟨c, hc, rfl⟩ := List.mem_map.mp he
    simp [missEntryOf, h c hc]
  rw [hnil]
  rfl

theorem impute_median_ok (df : DF) (n : String) (dfI : DF)
    (h : impute_column df n "median" = Except.ok dfI) :
    ∃ c0, df.cols.find? (fun c => c.name == n) = some c0 ∧ c0 ∈ df.cols ∧
      c0.name = n ∧
      ((c0.isNumeric = true ∧ cellsQ c0 = [] ∧ dfI = df) ∨
       (∃ m, dfI = fillColumn df n (some m))) := by
  rw [impute_column, if_neg (by simp)] at h
  cases hfind : df.cols.find? (fun c => c.name == n) with
  | none =>
    simp only [hfind] at h
    exact Except.noConfusion h
  | some c0 =>
    simp only [hfind] at h
    obtain ⟨hc0, hn0⟩ := find?_name_eq df n c0 hfind
    refine ⟨c0, rfl, hc0, hn0, ?_⟩
    by_cases hnum : c0.isNumeric
    · rw [if_pos hnum, if_pos trivial] at h
      cases hcq : cellsQ c0 with
      | nil =>
        left
        refine ⟨hnum, rfl, ?_⟩
        rw [hcq] at h
        simp only [medianQ, Option.map_none'] at h
        rw [← Except.ok.inj h, fillColumn_none]
      | cons q qs =>
        right
        obtain ⟨m, hm⟩ := medianQ_isSome (cellsQ c0) (by rw [hcq]; simp)
        rw [hm] at h
        exact ⟨CVal.num m, (Except.ok.inj h).symm⟩
    · rw [if_neg hnum] at h
      cases hmode : mode0 (nonNullCells c0) with
      | none =>
        simp only [hmode] at h
        exact Except.noConfusion h
      | some m =>
        simp only [hmode] at h
        exact Or.inr ⟨m, (Except.ok.inj h).symm⟩

theorem Fills_refl (c : Column) : Fills c c := ⟨rfl, rfl, fun _ h => h⟩

theorem Fills_trans {a b c : Column} (h1 : Fills a b) (h2 : Fills b c) : Fills a c :=
  ⟨h2.1.trans h1.1, h2.2.1.trans h1.2.1, fun x hx => h2.2.2 x (h1.2.2 x hx)⟩

theorem processColumns_cons_le_impute (t : ℚ) (e : MissEntry) (rest : List MissEntry)
    (df : DF) (hle : e.null_percentage ≤ t) :
    processColumns t "impute" (e :: rest) df =
      match impute_column df e.name "median" with
      | Except.ok dfI => processColumns t "impute" rest dfI
      | Except.error err => Except.error err := by
  simp only [processColumns]
  rw [if_pos hle, if_pos trivial]

theorem processColumns_cons_le_remove (t : ℚ) (e : MissEntry) (rest : List MissEntry)
    (df : DF) (hle : e.null_percentage ≤ t) :
    processColumns t "remove" (e :: rest) df =
      processColumns t "remove" rest (dropRowsWhereNull df e.name) := by
  simp only [processColumns]
  rw [if_pos hle, if_neg (by decide), if_pos trivial]

theorem processColumns_cons_gt (t : ℚ) (method : String) (e : MissEntry)
    (rest : List MissEntry) (df : DF) (hgt : ¬ e.null_percentage ≤ t) :
    processColumns t method (e :: rest) df =
      processColumns t method rest (dropColumn df e.name) := by
  simp only [processColumns]
  rw [if_neg hgt]

theorem impute_median_nrows (df : DF) (n : String) (dfI : DF)
    (h : impute_column df n "median" = Except.ok dfI) : dfI.nrows = df.nrows := by
  obtain ⟨c0, _, _, _, hcase⟩ := impute_median_ok df n dfI h
  rcases hcase with ⟨_, _, rfl⟩ | ⟨m, rfl⟩ <;> rfl

theorem impute_median_names (df : DF) (n : String) (dfI : DF)
    (h : impute_column df n "median" = Except.ok dfI) : colNames dfI = colNames df := by
  obtain ⟨c0, _, _, _, hcase⟩ := impute_median_ok df n dfI h
  rcases hcase with ⟨_, _, rfl⟩ | ⟨m, rfl⟩
  · rfl
  · exact fillColumn_names df n _

theorem impute_median_fills (df : DF) (n : String) (dfI : DF)
    (h : impute_column df n "median" = Except.ok dfI) :
    ∀ c2 ∈ dfI.cols, ∃ c ∈ df.cols, Fills c c2 := by
  obtain ⟨c0, _, _, _, hcase⟩ := impute_median_ok df n dfI h
  rcases hcase with ⟨_, _, rfl⟩ | ⟨m, rfl⟩
  · exact fun c2 hc2 => ⟨c2, hc2, Fills_refl c2⟩
  · exact fillColumn_fills df n _

theorem processColumns_impute_nrows (t : ℚ) :
    ∀ (l : List MissEntry) (df df2 : DF),
      processColumns t "impute" l df = Except.ok df2 → df2.nrows = df.nrows
  | [], df, df2, h => by
    rw [← Except.ok.inj h]
  | e :: rest, df, df2, h => by
    by_cases hle : e.null_percentage ≤ t
    · rw [processColumns_cons_le_impute t e rest df hle] at h
      cases him : impute_column df e.name "median" with
      | ok dfI =>
        rw [him] at h
        exact (processColumns_impute_nrows t rest dfI df2 h).trans
          (impute_median_nrows df e.name dfI him)
      | error err => rw [him] at h; exact Except.noConfusion h
    · rw [processColumns_cons_gt t _ e rest df hle] at h
      exact processColumns_impute_nrows t rest (dropColumn df e.name) df2 h

theorem processColumns_impute_fills (t : ℚ) :
    ∀ (l : List MissEntry) (df df2 : DF),
      processColumns t "impute" l df = Except.ok df2 →
      ∀ c2 ∈ df2.cols, ∃ c ∈ df.cols, Fills c c2
  | [], df, df2, h => by
    rw [← Except.ok.inj h]
    exact fun c2 hc2 => ⟨c2, hc2, Fills_refl c2⟩
  | e :: rest, df, df2, h => by
    by_cases hle : e.null_percentage ≤ t
    · rw [processColumns_cons_le_impute t e rest df hle] at h
      cases him : impute_column df e.name "median" with
      | ok dfI =>
        rw [him] at h
        intro c2 hc2
        obtain ⟨cM, hcM, hf2⟩ := processColumns_impute_fills t rest dfI df2 h c2 hc2
        obtain ⟨c, hc, hf1⟩ := impute_median_fills df e.name dfI him cM hcM
        exact ⟨c, hc, Fills_trans hf1 hf2⟩
      | error err => rw [him] at h; exact Except.noConfusion h
    · rw [processColumns_cons_gt t _ e rest df hle] at h
      intro c2 hc2
      obtain ⟨cM, hcM, hf⟩ := processColumns_impute_fills t rest _ df2 h c2 hc2
      exact ⟨cM, (dropColumn_mem df e.name cM hcM).1, hf⟩

theorem processColumns_impute_names_sub (t : ℚ) :
    ∀ (l : List MissEntry) (df df2 : DF),
      processColumns t "impute" l df = Except.ok df2 →
      (colNames df2).Sublist (colNames df)
  | [], df, df2, h => by rw [← Except.ok.inj h]
  | e :: rest, df, df2, h => by
    by_cases hle : e.null_percentage ≤ t
    · rw [processColumns_cons_le_impute t e rest df hle] at h
      cases him : impute_column df e.name "median" with
      | ok dfI =>
        rw [him] at h
        have := processColumns_impute_names_sub t rest dfI df2 h
        rwa [impute_median_names df e.name dfI him] at this
      | error err => rw [him] at h; exact Except.noConfusion h
    · rw [processColumns_cons_gt t _ e rest df hle] at h
      exact (processColumns_impute_names_sub t rest _ df2 h).trans
        (dropColumn_names_sublist df e.name)

theorem not_mem_colNames_dropColumn (df : DF) (n : String) :
    n ∉ colNames (dropColumn df n) := by
  intro hmem
  obtain ⟨c, hc, hname⟩ := List.mem_map.mp hmem
  exact absurd hname (dropColumn_mem df n c hc).2

theorem processColumns_impute_keeps (t : ℚ) :
    ∀ (l : List MissEntry) (df df2 : DF),
      processColumns t "impute" l df = Except.ok df2 →
      ∀ n, n ∈ colNames df →
        (∀ e ∈ l, e.name = n → e.null_percentage ≤ t) →
        n ∈ colNames df2
  | [], df, df2, h => by rw [← Except.ok.inj h]; exact fun n hn _ => hn
  | e :: rest, df, df2, h => by
    intro n hn hsafe
    by_cases hle : e.null_percentage ≤ t
    · rw [processColumns_cons_le_impute t e rest df hle] at h
      cases him : impute_column df e.name "median" with
      | ok dfI =>
        rw [him] at h
        refine processColumns_impute_keeps t rest dfI df2 h n ?_
          (fun e2 he2 => hsafe e2 (List.mem_cons_of_mem e he2))
        rwa [impute_median_names df e.name dfI him]
      | error err => rw [him] at h; exact Except.noConfusion h
    · rw [processColumns_cons_gt t _ e rest df hle] at h
      have hne : e.name ≠ n := fun heq => hle (hsafe e (List.mem_cons_self e rest) heq)
      refine processColumns_impute_keeps t rest _ df2 h n ?_
        (fun e2 he2 => hsafe e2 (List.mem_cons_of_mem e he2))
      obtain ⟨c, hc, rfl⟩ := List.mem_map.mp hn
      exact List.mem_map_of_mem Column.name
        (mem_dropColumn df e.name c hc (fun hh => hne hh.symm))

theorem processColumns_impute_dropped (t : ℚ) :
    ∀ (l : List MissEntry) (df df2 : DF),
      processColumns t "impute" l df = Except.ok df2 →
      ∀ e ∈ l, ¬ e.null_percentage ≤ t → e.name ∉ colNames df2
  | [], _, _, _ => by rintro e ⟨⟩
  | e0 :: rest, df, df2, h => by
    intro e he hgt
    rcases List.mem_cons.mp he with rfl | hrest
    · rw [processColumns_cons_gt t _ e rest df hgt] at h
      intro hmem
      have hsub := processColumns_impute_names_sub t rest _ df2 h
      exact not_mem_colNames_dropColumn df e.name (hsub.subset hmem)
    · by_cases hle : e0.null_percentage ≤ t
      · rw [processColumns_cons_le_impute t e0 rest df hle] at h
        cases him : impute_column df e0.name "median" with
        | ok dfI =>
          rw [him] at h
          exact processColumns_impute_dropped t rest dfI df2 h e hrest hgt
        | error err => rw [him] at h; exact Except.noConfusion h
      · rw [processColumns_cons_gt t _ e0 rest df hle] at h
        exact processColumns_impute_dropped t rest _ df2 h e hrest hgt

theorem processColumns_impute_noop (t : ℚ) :
    ∀ (l : List MissEntry) (df : DF),
      (∀ e ∈ l, e.null_percentage ≤ t ∧
        ∃ c, df.cols.find? (fun c0 => c0.name == e.name) = some c ∧
          c.isNumeric = true ∧ cellsQ c = []) →
      processColumns t "impute" l df = Except.ok df
  | [], df, _ => rfl
  | e :: rest, df, hyp => by
    obtain ⟨hle, c, hfind, hnum, hcq⟩ := hyp e (List.mem_cons_self e rest)
    have himp : impute_column df e.name "median" = Except.ok df := by
      rw [impute_column, if_neg (by simp)]
      simp only [hfind]
      rw [if_pos hnum, if_pos trivial, hcq]
      simp only [medianQ, Option.map_none']
      rw [fillColumn_none]
    rw [processColumns_cons_le_impute t e rest df hle, himp]
    exact processColumns_impute_noop t rest df
      (fun e2 he2 => hyp e2 (List.mem_cons_of_mem e he2))

theorem processColumns_impute_stuck (t : ℚ) :
    ∀ (l : List MissEntry) (df df2 : DF),
      processColumns t "impute" l df = Except.ok df2 →
      (colNames df).Nodup →
      (∀ c ∈ df.cols, 0 < nullCount c →
        (∃ e ∈ l, e.name = c.name ∧
          e.null_percentage = 100 * (nullCount c : ℚ) / (df.nrows : ℚ)) ∨
        ImputeStuck df.nrows t c) →
      ∀ c2 ∈ df2.cols, 0 < nullCount c2 → ImputeStuck df2.nrows t c2
  | [], df, df2, h => by
    rw [← Except.ok.inj h]
    intro _ hcov c2 hc2 hnc2
    rcases hcov c2 hc2 hnc2 with ⟨e, he, _⟩ | hstuck
    · exact absurd he (List.not_mem_nil e)
    · exact hstuck
  | e :: rest, df, df2, h => by
    intro hnd hcov
    by_cases hle : e.null_percentage ≤ t
    · rw [processColumns_cons_le_impute t e rest df hle] at h
      cases him : impute_column df e.name "median" with
      | error err => rw [him] at h; exact Except.noConfusion h
      | ok dfI =>
        rw [him] at h
        obtain ⟨c0, hfind, hc0mem, hc0name, hcase⟩ := impute_median_ok df e.name dfI him
        refine processColumns_impute_stuck t rest dfI df2 h ?_ ?_
        · rw [impute_median_names df e.name dfI him]; exact hnd
        · rcases hcase with ⟨hnum0, hcq0, hdfI⟩ | ⟨m, hdfI⟩
          · -- the impute was a no-op: dfI = df
            intro cI hcI hncI
            rw [hdfI] at hcI ⊢
            rcases hcov cI hcI hncI with ⟨e2, he2, hname, hpct⟩ | hstuck
            · rcases List.mem_cons.mp he2 with rfl | hr
              · -- the entry just processed covers cI: cI is the found column
                have hcIc0 : cI = c0 :=
                  names_inj df hnd cI hcI c0 hc0mem (hname.symm.trans hc0name.symm)
                right
                refine ⟨hcIc0 ▸ hnum0, hcIc0 ▸ hcq0, ?_⟩
                rw [← hpct]; exact hle
              · exact Or.inl ⟨e2, hr, hname, hpct⟩
            · exact Or.inr hstuck
          · -- the impute filled every column named e.name with a value
            intro cI hcI hncI
            rw [hdfI] at hcI ⊢
            obtain ⟨cPre, hcPre, himg⟩ := List.mem_map.mp hcI
            by_cases hpn : cPre.name = e.name
            · rw [if_pos hpn] at himg
              rw [← himg] at hncI
              exact absurd hncI (by rw [nullCount_fill_some]; exact lt_irrefl 0)
            · rw [if_neg hpn] at himg
              rw [← himg] at hncI ⊢
              rcases hcov cPre hcPre hncI with ⟨e2, he2, hname, hpct⟩ | hstuck
              · rcases List.mem_cons.mp he2 with rfl | hr
                · exact absurd (hname.symm : cPre.name = e2.name) hpn
                · exact Or.inl ⟨e2, hr, hname, hpct⟩
              · exact Or.inr hstuck
    · rw [processColumns_cons_gt t _ e rest df hle] at h
      refine processColumns_impute_stuck t rest _ df2 h
        (List.Nodup.sublist (dropColumn_names_sublist df e.name) hnd) ?_
      intro cD hcD hncD
      obtain ⟨hmem, hne⟩ := dropColumn_mem df e.name cD hcD
      rcases hcov cD hmem hncD with ⟨e2, he2, hname, hpct⟩ | hstuck
      · rcases List.mem_cons.mp he2 with rfl | hr
        · exact absurd hname.symm hne
        · exact Or.inl ⟨e2, hr, hname, hpct⟩
      · exact Or.inr hstuck


theorem dropRows_names (df : DF) (n : String) :
    colNames (dropRowsWhereNull df n) = colNames df := by
  unfold dropRowsWhereNull
  cases hfind : df.cols.find? (fun c => c.name == n) with
  | none => rfl
  | some c =>
    simp only [colNames, List.map_map]
    exact List.map_congr_left fun c2 _ => rfl

theorem maskFilter_sublist : ∀ (mask : List Bool) (vs : List (Option CVal)),
    (maskFilter mask vs).Sublist vs
  | [], vs => by
    have h : maskFilter [] vs = [] := rfl
    rw [h]; exact List.nil_sublist vs
  | b :: ms, [] => by
    have h : maskFilter (b :: ms) ([] : List (Option CVal)) = [] := rfl
    rw [h]
  | true :: ms, v :: vs => by
    have h : maskFilter (true :: ms) (v :: vs) = v :: maskFilter ms vs := rfl
    rw [h]; exact (maskFilter_sublist ms vs).cons₂ v
  | false :: ms, v :: vs => by
    have h : maskFilter (false :: ms) (v :: vs) = maskFilter ms vs := rfl
    rw [h]; exact (maskFilter_sublist ms vs).cons v

theorem countP_isNone_maskFilter_self :
    ∀ vs : List (Option CVal),
      (maskFilter (vs.map Option.isSome) vs).countP (fun o => o.isNone) = 0
  | [] => rfl
  | none :: vs => by
    have h : maskFilter ((none :: vs).map Option.isSome) (none :: vs) =
        maskFilter (vs.map Option.isSome) vs := rfl
    rw [h]
    exact countP_isNone_maskFilter_self vs
  | some x :: vs => by
    have h : maskFilter ((some x :: vs).map Option.isSome) (some x :: vs) =
        some x :: maskFilter (vs.map Option.isSome) vs := rfl
    rw [h, List.countP_cons_of_neg _ _ (by simp)]
    exact countP_isNone_maskFilter_self vs

theorem processColumns_remove_clean (t : ℚ) :
    ∀ (l : List MissEntry) (df df2 : DF),
      processColumns t "remove" l df = Except.ok df2 →
      (colNames df).Nodup →
      (∀ c ∈ df.cols, 0 < nullCount c → ∃ e ∈ l, e.name = c.name) →
      ∀ c2 ∈ df2.cols, nullCount c2 = 0
  | [], df, df2, h => by
    rw [← Except.ok.inj h]
    intro _ hcov c2 hc2
    by_contra hne
    obtain ⟨e, he, _⟩ := hcov c2 hc2 (Nat.pos_of_ne_zero hne)
    exact List.not_mem_nil e he
  | e :: rest, df, df2, h => by
    intro hnd hcov
    by_cases hle : e.null_percentage ≤ t
    · rw [processColumns_cons_le_remove t e rest df hle] at h
      refine processColumns_remove_clean t rest _ df2 h ?_ ?_
      · rw [dropRows_names]; exact hnd
      · intro cD hcD hncD
        unfold dropRowsWhereNull at hcD
        cases hfind : df.cols.find? (fun c => c.name == e.name) with
        | none =>
          rw [hfind] at hcD
          obtain ⟨e2, he2, hname⟩ := hcov cD hcD hncD
          rcases List.mem_cons.mp he2 with rfl | hr
          · exfalso
            have hno := List.find?_eq_none.mp hfind cD hcD
            rw [hname] at hno
            simp at hno
          · exact ⟨e2, hr, hname⟩
        | some c0 =>
          rw [hfind] at hcD
          obtain ⟨hc0mem, hc0name⟩ := find?_name_eq df e.name c0 hfind
          obtain ⟨cPre, hcPre, himg⟩ := List.mem_map.mp hcD
          by_cases hpn : cPre.name = e.name
          · have hPrec0 : cPre = c0 :=
              names_inj df hnd cPre hcPre c0 hc0mem (hpn.trans hc0name.symm)
            rw [← himg, hPrec0] at hncD
            simp only [nullCount, countP_isNone_maskFilter_self] at hncD
            exact absurd hncD (lt_irrefl 0)
          · have hle2 : nullCount cD ≤ nullCount cPre := by
              rw [← himg]
              exact List.Sublist.countP_le _ (maskFilter_sublist _ cPre.values)
            obtain ⟨e2, he2, hname⟩ := hcov cPre hcPre (lt_of_lt_of_le hncD hle2)
            rcases List.mem_cons.mp he2 with rfl | hr
            · exact absurd hname.symm hpn
            · refine ⟨e2, hr, ?_⟩
              rw [hname, ← himg]
    · rw [processColumns_cons_gt t _ e rest df hle] at h
      refine processColumns_remove_clean t rest _ df2 h
        (List.Nodup.sublist (dropColumn_names_sublist df e.name) hnd) ?_
      intro cD hcD hncD
      obtain ⟨hmem, hne⟩ := dropColumn_mem df e.name cD hcD
      obtain ⟨e2, he2, hname⟩ := hcov cD hmem hncD
      rcases List.mem_cons.mp he2 with rfl | hr
      · exact absurd hname.symm hne
      · exact ⟨e2, hr, hname⟩

section MainClaims

attribute [local semireducible] Rat.add Rat.mul Rat.inv Rat.sub

/-- C8: running `handle_missing_values` a second time on its own output is a
no-op for both policy methods: the second run returns the first run's output
unchanged (for `remove` no nulls remain; for `impute` the only surviving
nulls sit in all-null numeric columns whose re-imputation fills nothing). -/
theorem claim_C8_theorem (df : DF) (t : ℚ) (method : String) (df2 : DF)
    (hm : method = "impute" ∨ method = "remove")
    (hnd : (colNames df).Nodup)
    (h : handle_missing_values df t method = Except.ok df2) :
    handle_missing_values df2 t method = Except.ok df2 := by
  rcases hm with rfl | rfl
  · unfold handle_missing_values at h ⊢
    have hstuck := processColumns_impute_stuck t (identify_missing_values df) df df2 h hnd ?cover
    case cover =>
      intro c hc hnc
      exact Or.inl ⟨missEntryOf df.nrows c,
        (mem_identify df _).mpr ⟨c, hc, hnc, rfl⟩, rfl, rfl⟩
    have hnd2 : (colNames df2).Nodup :=
      List.Nodup.sublist (processColumns_impute_names_sub t _ df df2 h) hnd
    apply processColumns_impute_noop
    intro e he
    obtain ⟨c', hc', hnc', rfl⟩ := (mem_identify df2 e).mp he
    obtain ⟨hnum, hcq, hpct⟩ := hstuck c' hc' hnc'
    exact ⟨hpct, c', find?_of_nodup df2 hnd2 c' hc', hnum, hcq⟩
  · unfold handle_missing_values at h ⊢
    have hclean := processColumns_remove_clean t (identify_missing_values df) df df2 h hnd ?cov
    case cov =>
      intro c hc hnc
      exact ⟨missEntryOf df.nrows c, (mem_identify df _).mpr ⟨c, hc, hnc, rfl⟩, rfl⟩
    rw [identify_eq_nil df2 hclean]
    rfl

/-- C8 witness: the idempotence theorem applied to the concrete frame with
`a = [1, 2, null, 4]` at threshold 30, whose first run fills the median 2. -/
theorem claim_C8_witness :
    handle_missing_values dfPartialFilled 30 "impute" = Except.ok dfPartialFilled :=
  claim_C8_theorem dfPartial 30 "impute" dfPartialFilled (Or.inl rfl)
    (by decide) (by decide)

/-- C1 amended: after `handle_missing_values` with method `impute`, every
reported column within the threshold that had at least one non-null value
survives with zero nulls, and every reported column whose original null
percentage exceeds the threshold is absent from the result.  (An all-null
numeric column imputed at threshold ≥ 100 keeps its nulls, and a null-free
column is never in the report, so never dropped even when `0 > t`.) -/
theorem claim_C1_theorem (df : DF) (t : ℚ) (df2 : DF)
    (hnd : (colNames df).Nodup) (hwf : wfNumeric df = true)
    (h : handle_missing_values df t "impute" = Except.ok df2) :
    (∀ c ∈ df.cols, 0 < nullCount c →
      100 * (nullCount c : ℚ) / (df.nrows : ℚ) ≤ t →
      nonNullCells c ≠ [] →
      ∃ c2 ∈ df2.cols, c2.name = c.name ∧ nullCount c2 = 0) ∧
    (∀ c ∈ df.cols, 0 < nullCount c →
      t < 100 * (nullCount c : ℚ) / (df.nrows : ℚ) →
      ∀ c2 ∈ df2.cols, c2.name ≠ c.name) := by
  unfold handle_missing_values at h
  constructor
  · intro c hc hnc hple hnn
    have hsafe : ∀ e ∈ identify_missing_values df, e.name = c.name →
        e.null_percentage ≤ t := by
      intro e he hname
      obtain ⟨c', hc', hnc', rfl⟩ := (mem_identify df e).mp he
      have hcc : c' = c := names_inj df hnd c' hc' c hc hname
      rw [hcc]
      exact hple
    have hmemname : c.name ∈ colNames df2 :=
      processColumns_impute_keeps t _ df df2 h c.name
        (List.mem_map_of_mem Column.name hc) hsafe
    obtain ⟨c2, hc2, hc2name⟩ := List.mem_map.mp hmemname
    refine ⟨c2, hc2, hc2name, ?_⟩
    by_contra hne
    have hnc2 : 0 < nullCount c2 := Nat.pos_of_ne_zero hne
    have hstuck := processColumns_impute_stuck t (identify_missing_values df)
      df df2 h hnd ?cov c2 hc2 hnc2
    case cov =>
      intro c' hc' hnc'
      exact Or.inl ⟨missEntryOf df.nrows c',
        (mem_identify df _).mpr ⟨c', hc', hnc', rfl⟩, rfl, rfl⟩
    obtain ⟨hnum2, hcq2, _⟩ := hstuck
    obtain ⟨cPre, hcPre, hfill⟩ := processColumns_impute_fills t _ df df2 h c2 hc2
    have hPrec : cPre = c :=
      names_inj df hnd cPre hcPre c hc (hfill.1.symm.trans hc2name)
    rw [hPrec] at hfill
    obtain ⟨x, hx⟩ := List.exists_mem_of_ne_nil _ hnn
    obtain ⟨o, ho, hox⟩ := List.mem_filterMap.mp hx
    have hox2 : o = some x := hox
    rw [hox2] at ho
    have hxc2 : some x ∈ c2.values := hfill.2.2 x ho
    cases x with
    | num q =>
      have hq : q ∈ cellsQ c2 := List.mem_filterMap.mpr ⟨some (CVal.num q), hxc2, rfl⟩
      rw [hcq2] at hq
      exact List.not_mem_nil q hq
    | str s =>
      have hcn : c.isNumeric = true := hfill.2.1 ▸ hnum2
      exact wf_col df hwf c hc hcn (some (CVal.str s)) ho s rfl
  · intro c hc hnc hpgt c2 hc2 heq
    have he : missEntryOf df.nrows c ∈ identify_missing_values df :=
      (mem_identify df _).mpr ⟨c, hc, hnc, rfl⟩
    have habs := processColumns_impute_dropped t _ df df2 h
      (missEntryOf df.nrows c) he (not_le.mpr hpgt)
    have hmm : c2.name ∈ colNames df2 := List.mem_map_of_mem Column.name hc2
    rw [heq] at hmm
    exact habs hmm

/-- C1 witness: the amended theorem applied to the ten-row frame where `age`
(30% nulls) is dropped and `income` (10% nulls) is imputed. -/
theorem claim_C1_witness :
    (∃ c2 ∈ dfTwoColsResult.cols, c2.name = "income" ∧ nullCount c2 = 0) ∧
    (∀ c2 ∈ dfTwoColsResult.cols, c2.name ≠ "age") :=
  have hthm := claim_C1_theorem dfTwoCols 10 dfTwoColsResult
    (by decide) (by decide) (by decide)
  ⟨hthm.1 incomeCol (by decide) (by decide) (by decide) (by decide),
   hthm.2 ageCol (by decide) (by decide) (by decide)⟩

end MainClaims

end LoansEDA
